import Mathlib

/-!
Shallow embedding of the Science News Scanner pipeline
(`src/Science_News_Scanner.py`): three source adapters (OpenAlex, OSF
preprints, RSS feeds), a keyword junk filter, title-keyed deduplication,
an AI judgment stage with an acceptance threshold of 6 and a cap of 25
candidates, and a score-descending sort before rendering.

External effects (HTTP, the judgment service, `random.shuffle`) are
modelled as explicit parameters: each adapter receives the parsed
response (or the fact that the request raised) as an `Except`/structure
value, the judgment service is an oracle function from article to
outcome, and the shuffle is a function parameter which claims hypothesise
to be a permutation.
-/

namespace Scanner

/-! ### String primitives

Python string operations (`in`, `.lower()`, slicing, `', '.join`,
`.split(' OR ')[0]`) are embedded as structurally recursive functions on
the character list of a `String`, mirroring their Python semantics. -/

/-- Predicate `charsStartWith needle haystack`: the needle is a prefix of the haystack. -/
def charsStartWith : List Char → List Char → Bool
  | [], _ => true
  | _ :: _, [] => false
  | a :: as, b :: bs => a == b && charsStartWith as bs

/-- Predicate `charsContain haystack needle`: the needle occurs contiguously in the
haystack (Python `needle in haystack`). -/
def charsContain : List Char → List Char → Bool
  | [], needle => needle.isEmpty
  | h :: t, needle => charsStartWith needle (h :: t) || charsContain t needle

/-- Python `needle in haystack` on strings. -/
def strContain (haystack needle : String) : Bool :=
  charsContain haystack.data needle.data

/-- Python `s.lower()` (ASCII range, as used by the scanner's keyword lists). -/
def lowerStr (s : String) : String :=
  ⟨s.data.map Char.toLower⟩

/-- Python slicing `s[:n]`: the first `n` characters. -/
def pyTrunc (s : String) (n : Nat) : String :=
  ⟨s.data.take n⟩

/-- Characters of `s` before the first occurrence of `sep`
(the whole of `s` when `sep` does not occur). -/
def firstSegment (sep : List Char) : List Char → List Char
  | [] => []
  | c :: rest =>
    if charsStartWith sep (c :: rest) then []
    else c :: firstSegment sep rest

/-- Python `q.split(' OR ')[0]`. -/
def splitHeadOr (q : String) : String :=
  ⟨firstSegment " OR ".data q.data⟩

/-- Python `', '.join(parts)`. -/
def joinComma : List String → String
  | [] => ""
  | [s] => s
  | s :: rest => s ++ ", " ++ joinComma rest

/-- Python `a or b` on optional strings: `a` when it is a non-empty string,
otherwise `b` (used for `item.get('doi') or item.get('id')`). -/
def pyOrStr (a b : Option String) : Option String :=
  match a with
  | some s => if s.isEmpty then b else some s
  | none => b

/-! ### Data model -/

/-- The common article record built by every source adapter
(the Python dict with keys `title`, `link`, `summary`, `source`). -/
structure Article where
  title : String
  link : Option String
  summary : String
  source : String
deriving DecidableEq

/-! ### Configuration (`EXCLUDE_TERMS`, OSF `relevant_keywords`) -/

/-- The banned-term list `EXCLUDE_TERMS`. -/
def EXCLUDE_TERMS : List String :=
  ["classroom", "education", "pedagogy", "curriculum", "funding",
   "policy", "obituary", "correction", "erratum", "diversity",
   "student", "campus", "undergraduate", "flipped"]

/-- The OSF adapter's local include-keyword list `relevant_keywords`. -/
def relevant_keywords : List String :=
  ["quantum", "ai", "intelligence", "neural", "physics", "bio",
   "genome", "space", "time", "simulation"]

/-- Embeds `is_junk(title, summary)`: some exclude term occurs in the lowercased
concatenation `title + " " + summary`. -/
def is_junk (title summary : String) : Bool :=
  let text := lowerStr (title ++ " " ++ summary)
  EXCLUDE_TERMS.any (fun term => strContain text term)

/-! ### OpenAlex adapter (`fetch_openalex_targeted`)

The HTTP layer is modelled per query: each query is paired with either
`Except.error ()` (the request or JSON parse raised) or the parsed
response, a status code and a `results` list. -/

/-- One entry of an OpenAlex work's `concepts` list. -/
structure Concept where
  display_name : String
deriving DecidableEq

/-- One item of the OpenAlex `results` list; `title` is `item.get('title')`
(`none` when absent), similarly `doi` and `id_`. -/
structure OpenAlexWork where
  title : Option String
  doi : Option String
  id_ : Option String
  concepts : List Concept
deriving DecidableEq

/-- A parsed OpenAlex response: HTTP status code and `results` list. -/
structure OpenAlexResp where
  status : Nat
  results : List OpenAlexWork
deriving DecidableEq

/-- The per-item body of the OpenAlex loop: skip falsy titles, synthesize
the summary from the first five concept labels, drop junk, build the record. -/
def openalexProcessItem (q : String) (item : OpenAlexWork) : Option Article :=
  match item.title with
  | none => none
  | some title =>
    if title = "" then none
    else
      let concepts := (item.concepts.take 5).map (fun c => c.display_name)
      let summary := "Key Concepts: " ++ joinComma concepts
      if is_junk title summary then none
      else some
        { title := title
          link := pyOrStr item.doi item.id_
          summary := summary
          source := "OpenAlex (" ++ splitHeadOr q ++ "...)" }

/-- One query of `fetch_openalex_targeted`: a raised request contributes
nothing (`except ... continue`), a non-200 status contributes nothing,
otherwise each result item is processed. -/
def openalexQuery (q : String) (resp : Except Unit OpenAlexResp) : List Article :=
  match resp with
  | .error _ => []
  | .ok data =>
    if data.status = 200 then data.results.filterMap (openalexProcessItem q)
    else []

/-- Embeds `fetch_openalex_targeted`, over the list of (query, response) pairs. -/
def fetch_openalex_targeted (reqs : List (String × Except Unit OpenAlexResp)) :
    List Article :=
  reqs.flatMap (fun p => openalexQuery p.1 p.2)

/-! ### OSF adapter (`fetch_osf_preprints`) -/

/-- One item of the OSF `data` list: `attributes.title` (default `''`),
`attributes.description` (may be null), and `links.html` (may be absent). -/
structure OsfItem where
  title : String
  description : Option String
  linkHtml : Option String
deriving DecidableEq

/-- The per-item body of the OSF loop: junk check first, then the local
include-keyword check on the lowercased `title + desc`. -/
def osfProcessItem (item : OsfItem) : Option Article :=
  let title := item.title
  let desc := item.description.getD ""
  let full_text := lowerStr (title ++ desc)
  if is_junk title desc then none
  else if relevant_keywords.any (fun k => strContain full_text k) then
    some
      { title := title
        link := item.linkHtml
        summary := pyTrunc desc 500
        source := "OSF Preprint" }
  else none

/-- Embeds `fetch_osf_preprints`: the single request either raises (empty result)
or yields a `data` list whose items are processed one by one. -/
def fetch_osf_preprints (resp : Except Unit (List OsfItem)) : List Article :=
  match resp with
  | .error _ => []
  | .ok items => items.filterMap osfProcessItem

/-! ### RSS adapter (`fetch_rss_feeds`) -/

/-- One parsed feed entry: `entry.title`, `entry.link`, and
`getattr(entry, 'summary', '')` (`none` when the attribute is absent). -/
structure RssEntry where
  title : String
  link : String
  summary : Option String
deriving DecidableEq

/-- One parsed feed: `feed.feed.get('title', 'RSS Source')` modelled as an
optional feed title, plus the entry list. -/
structure RssFeed where
  feedTitle : Option String
  entries : List RssEntry
deriving DecidableEq

/-- The per-entry body of the RSS loop: truncate the summary to 600
characters, drop junk, build the record. -/
def rssProcessEntry (feedTitle : Option String) (e : RssEntry) : Option Article :=
  let summary := pyTrunc (e.summary.getD "") 600
  if is_junk e.title summary then none
  else some
    { title := e.title
      link := some e.link
      summary := summary
      source := feedTitle.getD "RSS Source" }

/-- One feed URL of `fetch_rss_feeds`: a raised request or parse skips the
feed; otherwise the top 10 entries are processed. -/
def rssFeedArticles (resp : Except Unit RssFeed) : List Article :=
  match resp with
  | .error _ => []
  | .ok feed => (feed.entries.take 10).filterMap (rssProcessEntry feed.feedTitle)

/-- Embeds `fetch_rss_feeds`, over the list of per-URL responses. -/
def fetch_rss_feeds (resps : List (Except Unit RssFeed)) : List Article :=
  resps.flatMap rssFeedArticles

/-! ### Aggregator (`unique_articles = {v['title']: v for v in all_articles}.values()`)

A Python dict is embedded as an association list with dict semantics:
assigning to an existing key replaces the value in place (keys keep
first-insertion order), assigning a fresh key appends. `values()` is
`map Prod.snd`. -/

/-- Python dict assignment `m[k] = v`. -/
def dictInsert : List (String × Article) → String → Article → List (String × Article)
  | [], k, v => [(k, v)]
  | (k', v') :: t, k, v =>
    if k' = k then (k', v) :: t else (k', v') :: dictInsert t k v

/-- Python dict lookup `m.get(k)` (first matching key). -/
def dictGet : List (String × Article) → String → Option Article
  | [], _ => none
  | (k', v') :: t, k => if k' = k then some v' else dictGet t k

/-- One step of the dict comprehension: `m[v['title']] = v`. -/
def dictStep (m : List (String × Article)) (v : Article) : List (String × Article) :=
  dictInsert m v.title v

/-- The dict comprehension `{v['title']: v for v in l}`. -/
def buildDict (l : List Article) : List (String × Article) :=
  l.foldl dictStep []

/-- Embeds `unique_articles`: the values of the title-keyed dict comprehension. -/
def unique_articles (l : List Article) : List Article :=
  (buildDict l).map Prod.snd

/-- The last element of `l` whose title is `k` (specification device for
the dict's last-seen-wins semantics). -/
def lastTitled : List Article → String → Option Article
  | [], _ => none
  | v :: t, k =>
    match lastTitled t k with
    | some w => some w
    | none => if v.title = k then some v else none

/-! ### Judgment stage (`analyze_with_ai`)

The external judgment call for one article either raises (API error, or
`json.loads` fails: the `except` branch) or yields a parsed JSON object
with optional `score`, `headline`, `reason` fields. The service is an
oracle function from article to outcome; `random.shuffle` is a function
parameter. -/

/-- A parsed judgment JSON object; each field may be absent. -/
structure AiData where
  score : Option Int
  headline : Option String
  reason : Option String
deriving DecidableEq

/-- The outcome of one judgment call: the `except` branch, or parsed data. -/
inductive AiOutcome where
  | failure
  | parsed (data : AiData)
deriving DecidableEq

/-- One rendered result: `{"original": article, "ai_data": data}`. -/
structure ScoredResult where
  original : Article
  ai_data : AiData
deriving DecidableEq

/-- The per-article body of the judgment loop: a raised call is skipped
(`except ... continue`); parsed data is kept iff `data.get("score", 0) >= 6`. -/
def judge (a : Article) (outcome : AiOutcome) : Option ScoredResult :=
  match outcome with
  | .failure => none
  | .parsed data =>
    if data.score.getD 0 ≥ 6 then some ⟨a, data⟩ else none

/-- Embeds `analyze_with_ai`: shuffle, cap at 25, early return on an empty
selection, then the per-article judgment loop. -/
def analyze_with_ai (articles : List Article)
    (shuffle : List Article → List Article)
    (oracle : Article → AiOutcome) : List ScoredResult :=
  let selection := (shuffle articles).take 25
  if selection.length = 0 then []
  else selection.filterMap (fun a => judge a (oracle a))

/-- The progress-bar fraction `(i + 1) / total`; a Python
`ZeroDivisionError` is an `Except.error`. -/
def progressFrac (i total : Nat) : Except Unit Rat :=
  if total = 0 then .error ()
  else .ok (((i : Rat) + 1) / (total : Rat))

/-- The judgment loop with the progress computation made explicit, so that
a division by zero would surface as an error. -/
def analyzeItemsE (oracle : Article → AiOutcome) (total : Nat) :
    Nat → List Article → Except Unit (List ScoredResult)
  | _, [] => .ok []
  | i, a :: rest => do
    let _ ← progressFrac i total
    let tail ← analyzeItemsE oracle total (i + 1) rest
    match judge a (oracle a) with
    | some r => .ok (r :: tail)
    | none => .ok tail

/-- Variant of `analyze_with_ai` with the progress computation explicit: the
`if total == 0: return []` guard runs before the loop. -/
def analyze_with_aiE (articles : List Article)
    (shuffle : List Article → List Article)
    (oracle : Article → AiOutcome) : Except Unit (List ScoredResult) :=
  let selection := (shuffle articles).take 25
  let total := selection.length
  if total = 0 then .ok []
  else analyzeItemsE oracle total 0 selection

/-! ### Final sort and pipeline (`winners.sort(key=..., reverse=True)`) -/

/-- The sort key `x['ai_data']['score']` (every appended result has a
present score, so the `getD 0` default is never the value used). -/
def scoreOf (r : ScoredResult) : Int :=
  r.ai_data.score.getD 0

/-- The descending-score order used by `winners.sort(..., reverse=True)`. -/
def scoreGe (a b : ScoredResult) : Prop :=
  scoreOf b ≤ scoreOf a

instance : DecidableRel scoreGe := fun a b => Int.decLe (scoreOf b) (scoreOf a)

instance : IsTotal ScoredResult scoreGe :=
  ⟨fun a b => Int.le_total (scoreOf b) (scoreOf a)⟩

instance : IsTrans ScoredResult scoreGe :=
  ⟨fun _ _ _ h1 h2 => le_trans h2 h1⟩

/-- Embeds `winners.sort(key=lambda x: x['ai_data']['score'], reverse=True)`
(a stable sort in descending score order). -/
def sortWinners (l : List ScoredResult) : List ScoredResult :=
  l.insertionSort scoreGe

/-- The whole pipeline body behind the "Run Deep Scan" button: fetch from
the three adapters, concatenate, deduplicate by title, judge, sort. -/
def run_pipeline (oaReqs : List (String × Except Unit OpenAlexResp))
    (osfResp : Except Unit (List OsfItem))
    (rssResps : List (Except Unit RssFeed))
    (shuffle : List Article → List Article)
    (oracle : Article → AiOutcome) : List ScoredResult :=
  let list1 := fetch_openalex_targeted oaReqs
  let list2 := fetch_osf_preprints osfResp
  let list3 := fetch_rss_feeds rssResps
  let all_articles := list1 ++ list2 ++ list3
  let final_list := unique_articles all_articles
  let winners := analyze_with_ai final_list shuffle oracle
  sortWinners winners

/-! ### Concrete inputs used by witness and counterexample theorems -/

/-- An OSF item passing the junk and relevance checks. -/
def wOsfItem : OsfItem := ⟨"Quantum leap", some "about quantum stuff", some "http://x"⟩

/-- The article the OSF adapter builds from `wOsfItem`. -/
def wArticle : Article :=
  ⟨"Quantum leap", some "http://x", "about quantum stuff", "OSF Preprint"⟩

/-- A judgment oracle that always returns a well-formed score-7 verdict. -/
def wOracle7 : Article → AiOutcome := fun _ => .parsed ⟨some 7, some "H", some "R"⟩

/-- The scored result produced for `wArticle` under `wOracle7`. -/
def wResult7 : ScoredResult := ⟨wArticle, ⟨some 7, some "H", some "R"⟩⟩

/-- A judgment oracle whose call always raises / fails to parse. -/
def failOracle : Article → AiOutcome := fun _ => .failure

/-- An OSF item that is junk (matches `classroom` and `flipped`) while also
matching the include keyword `quantum`. -/
def wJunkItem : OsfItem :=
  ⟨"Flipped classroom quantum study", some "quantum pedagogy", some "http://j"⟩

/-- Two candidates with the same title from different sources. -/
def dupA : Article := ⟨"Gravitational waves detected", some "u1", "s1", "SrcA"⟩

/-- Second candidate with the duplicate title. -/
def dupB : Article := ⟨"Gravitational waves detected", some "u2", "s2", "SrcB"⟩

/-- An OSF item whose upstream record has an empty title but a
keyword-matching description. -/
def osfNoTitle : OsfItem := ⟨"", some "quantum gravity notes", some "http://x"⟩

/-- An OpenAlex work with a title and no concepts. -/
def wOaWork : OpenAlexWork := ⟨some "Quantum leap paper", some "doi:1", some "W1", []⟩

/-- The article the OpenAlex adapter builds from `wOaWork` under the
`futurism OR simulation` query. -/
def wOaArticle : Article :=
  ⟨"Quantum leap paper", some "doi:1", "Key Concepts: ", "OpenAlex (futurism...)"⟩

/-- An OpenAlex work whose single concept label is 601 characters long. -/
def bigWork : OpenAlexWork :=
  ⟨some "A grand theory", some "doi:x", some "W1", [⟨⟨List.replicate 601 'z'⟩⟩]⟩

/-- An RSS feed with one harmless entry. -/
def wRssFeed : RssFeed := ⟨some "Feed", [⟨"Quantum news", "http://l", some "short"⟩]⟩

/-- The article the RSS adapter builds from `wRssFeed`. -/
def wRssArticle : Article := ⟨"Quantum news", some "http://l", "short", "Feed"⟩

/-- Scenario candidate judged with score 5. -/
def scenA : Article := ⟨"Alpha", some "http://a", "s", "Src"⟩

/-- Scenario candidate judged with score 6. -/
def scenB : Article := ⟨"Beta", some "http://b", "s", "Src"⟩

/-- Scenario candidate judged with score 9. -/
def scenC : Article := ⟨"Gamma", some "http://c", "s", "Src"⟩

/-- The scenario oracle: scores 5, 6 and 9 for the three candidates. -/
def scenOracle : Article → AiOutcome := fun a =>
  if a.title = "Alpha" then .parsed ⟨some 5, some "H5", some "R5"⟩
  else if a.title = "Beta" then .parsed ⟨some 6, some "H6", some "R6"⟩
  else .parsed ⟨some 9, some "H9", some "R9"⟩

/-! ### Lemmas about the title-keyed dict -/

lemma dictInsert_keys (m : List (String × Article)) (k : String) (v : Article) :
    (dictInsert m k v).map Prod.fst =
      if k ∈ m.map Prod.fst then m.map Prod.fst else m.map Prod.fst ++ [k] := by
  induction m with
  | nil => simp [dictInsert]
  | cons p t ih =>
    obtain ⟨k', v'⟩ := p
    by_cases h : k' = k
    · subst h
      simp [dictInsert]
    · simp only [dictInsert, if_neg h, List.map_cons, List.mem_cons]
      rw [ih]
      have hkk' : ¬ k = k' := fun hkk => h hkk.symm
      by_cases hk : k ∈ t.map Prod.fst
      · simp [hk, hkk']
      · simp [hk, hkk']

lemma dictInsert_nodupKeys {m : List (String × Article)} {k : String} {v : Article}
    (h : (m.map Prod.fst).Nodup) : ((dictInsert m k v).map Prod.fst).Nodup := by
  rw [dictInsert_keys]
  by_cases hk : k ∈ m.map Prod.fst
  · simpa [hk]
  · rw [if_neg hk]
    refine List.Nodup.append h (List.nodup_singleton k) ?_
    intro a ha hmem
    rw [List.mem_singleton] at hmem
    exact hk (hmem ▸ ha)

lemma dictInsert_titles {m : List (String × Article)} {k : String} {v : Article}
    (hm : ∀ p ∈ m, (p.2).title = p.1) (hv : v.title = k) :
    ∀ p ∈ dictInsert m k v, (p.2).title = p.1 := by
  induction m with
  | nil => simpa [dictInsert] using hv
  | cons q t ih =>
    obtain ⟨k', v'⟩ := q
    by_cases h : k' = k
    · subst h
      intro p hp
      rcases List.mem_cons.1 (by simpa [dictInsert] using hp) with rfl | hp'
      · simpa using hv
      · exact hm p (List.mem_cons_of_mem _ hp')
    · intro p hp
      rcases List.mem_cons.1 (by simpa [dictInsert, h] using hp) with rfl | hp'
      · exact hm ⟨k', v'⟩ (List.mem_cons_self _ _)
      · exact ih (fun q hq => hm q (List.mem_cons_of_mem _ hq)) p hp'

lemma buildDict_foldl_inv (l : List Article) :
    ∀ m : List (String × Article),
      (m.map Prod.fst).Nodup → (∀ p ∈ m, (p.2).title = p.1) →
      ((l.foldl dictStep m).map Prod.fst).Nodup ∧
        ∀ p ∈ l.foldl dictStep m, (p.2).title = p.1 := by
  induction l with
  | nil => exact fun m h1 h2 => ⟨h1, h2⟩
  | cons a t ih =>
    intro m h1 h2
    exact ih (dictStep m a) (dictInsert_nodupKeys h1) (dictInsert_titles h2 rfl)

lemma buildDict_nodupKeys (l : List Article) : ((buildDict l).map Prod.fst).Nodup :=
  (buildDict_foldl_inv l [] (by simp) (by simp)).1

lemma buildDict_titles (l : List Article) : ∀ p ∈ buildDict l, (p.2).title = p.1 :=
  (buildDict_foldl_inv l [] (by simp) (by simp)).2

lemma dictInsert_of_notMem {m : List (String × Article)} {k : String} (v : Article)
    (h : k ∉ m.map Prod.fst) : dictInsert m k v = m ++ [(k, v)] := by
  induction m with
  | nil => simp [dictInsert]
  | cons p t ih =>
    obtain ⟨k', v'⟩ := p
    simp only [List.map_cons, List.mem_cons] at h
    push_neg at h
    have hk' : ¬ k' = k := fun hkk => h.1 hkk.symm
    simp [dictInsert, hk', ih h.2]

lemma foldl_dictStep_self :
    ∀ (m acc : List (String × Article)),
      (((acc ++ m).map Prod.fst).Nodup) → (∀ p ∈ m, (p.2).title = p.1) →
      (m.map Prod.snd).foldl dictStep acc = acc ++ m := by
  intro m
  induction m with
  | nil => simp
  | cons p t ih =>
    obtain ⟨k, v⟩ := p
    intro acc hnd ht
    have hvt : v.title = k := ht (k, v) (List.mem_cons_self _ _)
    have hk : k ∉ acc.map Prod.fst := by
      rw [List.map_append] at hnd
      have hdisj := (List.nodup_append.1 hnd).2.2
      intro hkacc
      exact hdisj hkacc (by simp)
    have step1 : dictStep acc v = acc ++ [(k, v)] := by
      rw [dictStep, hvt]
      exact dictInsert_of_notMem v hk
    have hnd' : (((acc ++ [(k, v)]) ++ t).map Prod.fst).Nodup := by
      simpa [List.append_assoc] using hnd
    calc ((((k, v) :: t)).map Prod.snd).foldl dictStep acc
        = (t.map Prod.snd).foldl dictStep (dictStep acc v) := by simp
      _ = (t.map Prod.snd).foldl dictStep (acc ++ [(k, v)]) := by rw [step1]
      _ = (acc ++ [(k, v)]) ++ t :=
          ih (acc ++ [(k, v)]) hnd' (fun q hq => ht q (List.mem_cons_of_mem _ hq))
      _ = acc ++ (k, v) :: t := by simp

lemma dictGet_dictInsert (m : List (String × Article)) (k k' : String) (v : Article) :
    dictGet (dictInsert m k v) k' = if k = k' then some v else dictGet m k' := by
  induction m with
  | nil => simp [dictInsert, dictGet]
  | cons p t ih =>
    obtain ⟨a, b⟩ := p
    by_cases hak : a = k
    · subst hak
      by_cases hk' : a = k'
      · simp [dictInsert, dictGet, hk']
      · simp [dictInsert, dictGet, hk']
    · by_cases hk' : a = k'
      · subst hk'
        have hka : ¬ k = a := fun hkk => hak hkk.symm
        simp [dictInsert, dictGet, hak, hka]
      · simp [dictInsert, dictGet, hak, hk', ih]

lemma dictGet_foldl_lastTitled (l : List Article) :
    ∀ (acc : List (String × Article)) (k : String),
      dictGet (l.foldl dictStep acc) k =
        match lastTitled l k with
        | some w => some w
        | none => dictGet acc k := by
  induction l with
  | nil => intro acc k; simp [lastTitled]
  | cons v t ih =>
    intro acc k
    have : (v :: t).foldl dictStep acc = t.foldl dictStep (dictStep acc v) := by simp
    rw [this, ih (dictStep acc v) k]
    cases hlt : lastTitled t k with
    | some w => simp [lastTitled, hlt]
    | none =>
      by_cases hv : v.title = k
      · simp [lastTitled, hlt, hv, dictStep, dictGet_dictInsert]
      · simp [lastTitled, hlt, hv, dictStep, dictGet_dictInsert]

lemma dictGet_of_mem_nodup {m : List (String × Article)} {k : String} {v : Article}
    (hmem : (k, v) ∈ m) (hnd : (m.map Prod.fst).Nodup) : dictGet m k = some v := by
  induction m with
  | nil => cases hmem
  | cons p t ih =>
    obtain ⟨a, b⟩ := p
    have hnd' : (a :: t.map Prod.fst).Nodup := by rw [List.map_cons] at hnd; exact hnd
    have hcons := List.nodup_cons.1 hnd'
    rcases List.mem_cons.1 hmem with h | h
    · have h1 : k = a := congrArg Prod.fst h
      have h2 : v = b := congrArg Prod.snd h
      subst h1
      subst h2
      simp [dictGet]
    · have hak : a ≠ k := by
        rintro rfl
        exact hcons.1 (List.mem_map.2 ⟨(a, v), h, rfl⟩)
      simp [dictGet, hak, ih h hcons.2]

lemma mem_of_dictGet {m : List (String × Article)} {k : String} {v : Article}
    (h : dictGet m k = some v) : (k, v) ∈ m := by
  induction m with
  | nil => simp [dictGet] at h
  | cons p t ih =>
    obtain ⟨a, b⟩ := p
    by_cases hak : a = k
    · subst hak
      have h' : some b = some v := by simpa [dictGet] using h
      obtain rfl := Option.some.inj h'
      exact List.mem_cons_self _ _
    · simp only [dictGet, if_neg hak] at h
      exact List.mem_cons_of_mem _ (ih h)

lemma lastTitled_mem {l : List Article} {k : String} {a : Article}
    (h : lastTitled l k = some a) : a ∈ l ∧ a.title = k := by
  induction l with
  | nil => simp [lastTitled] at h
  | cons v t ih =>
    simp only [lastTitled] at h
    cases hlt : lastTitled t k with
    | some w =>
      rw [hlt] at h
      obtain rfl : w = a := by simpa using h
      exact ⟨List.mem_cons_of_mem _ (ih hlt).1, (ih hlt).2⟩
    | none =>
      rw [hlt] at h
      by_cases hv : v.title = k
      · rw [if_pos hv] at h
        obtain rfl : v = a := by simpa using h
        exact ⟨List.mem_cons_self _ _, hv⟩
      · rw [if_neg hv] at h
        cases h

lemma lastTitled_isSome_of_mem {l : List Article} {a : Article}
    (hmem : a ∈ l) (ht : a.title = k) : ∃ b, lastTitled l k = some b := by
  induction l with
  | nil => cases hmem
  | cons v t ih =>
    rcases List.mem_cons.1 hmem with rfl | h
    · cases hlt : lastTitled t k with
      | some w => exact ⟨w, by simp [lastTitled, hlt]⟩
      | none => exact ⟨a, by simp [lastTitled, hlt, ht]⟩
    · obtain ⟨b, hb⟩ := ih h
      exact ⟨b, by simp [lastTitled, hb]⟩

lemma unique_articles_titles_eq_keys (l : List Article) :
    (unique_articles l).map (fun a => a.title) = (buildDict l).map Prod.fst := by
  rw [unique_articles, List.map_map]
  exact List.map_congr_left (fun p hp => buildDict_titles l p hp)

/-! ### Lemmas about the judgment stage -/

lemma analyzeItemsE_eq_ok (oracle : Article → AiOutcome) {total : Nat}
    (ht : total ≠ 0) :
    ∀ (i : Nat) (l : List Article),
      analyzeItemsE oracle total i l =
        .ok (l.filterMap (fun b => judge b (oracle b))) := by
  intro i l
  induction l generalizing i with
  | nil => simp [analyzeItemsE]
  | cons a t ih =>
    rw [analyzeItemsE]
    rw [progressFrac, if_neg ht]
    rw [List.filterMap_cons]
    cases hj : judge a (oracle a) with
    | none => simp [ih (i + 1), hj, Bind.bind, Except.bind]
    | some r => simp [ih (i + 1), hj, Bind.bind, Except.bind]

lemma analyze_with_aiE_eq (articles : List Article)
    (shuffle : List Article → List Article) (oracle : Article → AiOutcome) :
    analyze_with_aiE articles shuffle oracle =
      .ok (analyze_with_ai articles shuffle oracle) := by
  rw [analyze_with_aiE, analyze_with_ai]
  by_cases h : ((shuffle articles).take 25).length = 0
  · simp [h]
  · simp only [if_neg h]
    exact analyzeItemsE_eq_ok oracle h 0 _

lemma judge_eq_some {a : Article} {o : AiOutcome} {r : ScoredResult}
    (h : judge a o = some r) :
    r.original = a ∧ ∃ s, r.ai_data.score = some s ∧ 6 ≤ s := by
  cases o with
  | failure => simp [judge] at h
  | parsed data =>
    rw [judge] at h
    by_cases hs : data.score.getD 0 ≥ 6
    · rw [if_pos hs] at h
      obtain rfl : (⟨a, data⟩ : ScoredResult) = r := by simpa using h
      refine ⟨rfl, ?_⟩
      cases hsc : data.score with
      | none => rw [hsc] at hs; simp [Option.getD] at hs
      | some s =>
        refine ⟨s, by simp [hsc], ?_⟩
        rw [hsc] at hs
        simpa using hs
    · rw [if_neg hs] at h
      cases h

/-- Helper: a string starting with `"OpenAlex ("` is non-empty. -/
lemma openalex_label_ne_empty (s t : String) : ("OpenAlex (" ++ s ++ t) ≠ "" := by
  intro h
  have hl := congrArg String.length h
  rw [String.length_append, String.length_append] at hl
  have h10 : ("OpenAlex (" : String).length = 10 := rfl
  have h0 : ("" : String).length = 0 := rfl
  omega

lemma mem_analyze {articles : List Article} {shuffle : List Article → List Article}
    {oracle : Article → AiOutcome} {r : ScoredResult}
    (hr : r ∈ analyze_with_ai articles shuffle oracle) :
    ∃ a ∈ (shuffle articles).take 25, judge a (oracle a) = some r := by
  simp only [analyze_with_ai] at hr
  split at hr
  · cases hr
  · exact List.mem_filterMap.1 hr

lemma openalexProcessItem_eq_some {q : String} {item : OpenAlexWork} {a : Article}
    (h : openalexProcessItem q item = some a) :
    a.title ≠ "" ∧ a.source = "OpenAlex (" ++ splitHeadOr q ++ "...)" := by
  obtain ⟨topt, doi, id_, cons⟩ := item
  cases topt with
  | none => simp [openalexProcessItem] at h
  | some t =>
    simp only [openalexProcessItem] at h
    split_ifs at h
    obtain rfl := Option.some.inj h
    exact ⟨by assumption, rfl⟩

lemma osfProcessItem_eq_some {item : OsfItem} {a : Article}
    (h : osfProcessItem item = some a) :
    a.source = "OSF Preprint" ∧
      a.summary = pyTrunc (item.description.getD "") 500 ∧
      a.title = item.title := by
  simp only [osfProcessItem] at h
  split_ifs at h
  obtain rfl := Option.some.inj h
  exact ⟨rfl, rfl, rfl⟩

lemma rssProcessEntry_eq_some {ft : Option String} {e : RssEntry} {a : Article}
    (h : rssProcessEntry ft e = some a) :
    a.summary = pyTrunc (e.summary.getD "") 600 := by
  simp only [rssProcessEntry] at h
  split_ifs at h
  obtain rfl := Option.some.inj h
  exact rfl

lemma pyTrunc_length_le (s : String) (n : Nat) : (pyTrunc s n).length ≤ n := by
  show (s.data.take n).length ≤ n
  rw [List.length_take]
  exact min_le_left _ _

/-! ### Claim theorems -/

/-- C1: every scored result in the final rendered output of the pipeline has
a present score of at least the acceptance threshold 6: `analyze_with_ai`
appends a result only when the parsed score is at least 6, so no
below-threshold candidate is ever in the winners list. -/
theorem pipeline_scores_ge_threshold
    (oaReqs : List (String × Except Unit OpenAlexResp))
    (osfResp : Except Unit (List OsfItem))
    (rssResps : List (Except Unit RssFeed))
    (shuffle : List Article → List Article)
    (oracle : Article → AiOutcome) :
    ∀ r ∈ run_pipeline oaReqs osfResp rssResps shuffle oracle,
      ∃ s, r.ai_data.score = some s ∧ 6 ≤ s := by
  intro r hr
  simp only [run_pipeline, sortWinners, List.mem_insertionSort] at hr
  obtain ⟨a, _, hj⟩ := mem_analyze hr
  exact (judge_eq_some hj).2

/-- Witness for C1 at a concrete one-article pipeline run. -/
theorem pipeline_scores_ge_threshold_witness :
    ∃ s, wResult7.ai_data.score = some s ∧ 6 ≤ s :=
  pipeline_scores_ge_threshold [] (.ok [wOsfItem]) [] id wOracle7 wResult7 (by decide)

/-- C2: in the OSF adapter the junk check is applied before and independently
of the include-keyword check: if `is_junk` holds on an item's title and
description, that item maps to no article and contributes nothing to the
adapter's output, regardless of include-keyword matches. -/
theorem osf_junk_exclusion_dominant (item : OsfItem)
    (h : is_junk item.title (item.description.getD "") = true) :
    osfProcessItem item = none ∧
    ∀ xs ys, fetch_osf_preprints (.ok (xs ++ item :: ys)) =
      fetch_osf_preprints (.ok (xs ++ ys)) := by
  have h1 : osfProcessItem item = none := by
    simp only [osfProcessItem]
    rw [if_pos h]
  refine ⟨h1, fun xs ys => ?_⟩
  simp only [fetch_osf_preprints, List.filterMap_append, List.filterMap_cons, h1]

/-- Witness for C2: a junk item that also matches the include keyword
`quantum` is still dropped. -/
theorem osf_junk_exclusion_dominant_witness :
    osfProcessItem wJunkItem = none ∧
    fetch_osf_preprints (.ok ([] ++ wJunkItem :: [])) =
      fetch_osf_preprints (.ok ([] ++ [])) :=
  ⟨(osf_junk_exclusion_dominant wJunkItem (by decide)).1,
   (osf_junk_exclusion_dominant wJunkItem (by decide)).2 [] []⟩

/-- C3: the Aggregator's deduplicated output has pairwise-distinct titles,
covers exactly the input's titles, each representative is the last-seen
candidate with its title, and deduplication is idempotent. -/
theorem unique_articles_dedup_idempotent (l : List Article) :
    ((unique_articles l).map (fun a => a.title)).Nodup ∧
    (∀ t, (t ∈ (unique_articles l).map (fun a => a.title)) ↔
      t ∈ l.map (fun a => a.title)) ∧
    (∀ a ∈ unique_articles l, lastTitled l a.title = some a) ∧
    unique_articles (unique_articles l) = unique_articles l := by
  have hnd := buildDict_nodupKeys l
  have hti := buildDict_titles l
  have hlast : ∀ a ∈ unique_articles l, lastTitled l a.title = some a := by
    intro a ha
    obtain ⟨p, hp, hpa⟩ := List.mem_map.1 ha
    obtain ⟨k, v⟩ := p
    obtain rfl : a = v := hpa.symm
    have hkt : a.title = k := hti (k, a) hp
    have hget : dictGet (buildDict l) k = some a := dictGet_of_mem_nodup hp hnd
    have hfold := dictGet_foldl_lastTitled l [] k
    rw [buildDict] at hget
    rw [hget] at hfold
    rw [hkt]
    cases hlt : lastTitled l k with
    | some w =>
      rw [hlt] at hfold
      exact hfold.symm
    | none =>
      rw [hlt] at hfold
      simp [dictGet] at hfold
  have h1 : ((unique_articles l).map (fun a => a.title)).Nodup := by
    rw [unique_articles_titles_eq_keys]
    exact hnd
  have h2 : ∀ t, (t ∈ (unique_articles l).map (fun a => a.title)) ↔
      t ∈ l.map (fun a => a.title) := by
    intro t
    constructor
    · intro ht
      obtain ⟨a, ha, hat⟩ := List.mem_map.1 ht
      have hm := (lastTitled_mem (hlast a ha)).1
      exact List.mem_map.2 ⟨a, hm, hat⟩
    · intro ht
      obtain ⟨a, ha, hat⟩ := List.mem_map.1 ht
      obtain ⟨b, hb⟩ := lastTitled_isSome_of_mem ha hat
      have hfold := dictGet_foldl_lastTitled l [] t
      rw [hb] at hfold
      have hmem := mem_of_dictGet (m := buildDict l) (by rw [buildDict]; exact hfold)
      have hbt : b.title = t := hti (t, b) hmem
      exact List.mem_map.2 ⟨b, List.mem_map.2 ⟨(t, b), hmem, rfl⟩, hbt⟩
  have h4 : unique_articles (unique_articles l) = unique_articles l := by
    have h5 := foldl_dictStep_self (buildDict l) [] (by simpa using hnd) hti
    calc unique_articles (unique_articles l)
        = (((buildDict l).map Prod.snd).foldl dictStep []).map Prod.snd := rfl
      _ = ([] ++ buildDict l).map Prod.snd := by rw [h5]
      _ = unique_articles l := by simp [unique_articles]
  exact ⟨h1, h2, hlast, h4⟩

/-- Witness for C3: two same-titled candidates from different sources keep
exactly the last-seen one, and re-deduplication is a fixed point. -/
theorem unique_articles_dedup_idempotent_witness :
    lastTitled [dupA, dupB] "Gravitational waves detected" = some dupB ∧
    unique_articles (unique_articles [dupA, dupB]) = unique_articles [dupA, dupB] :=
  ⟨(unique_articles_dedup_idempotent [dupA, dupB]).2.2.1 dupB (by decide),
   (unique_articles_dedup_idempotent [dupA, dupB]).2.2.2⟩

/-- Counterexample for C4: the OSF adapter propagates an empty upstream
title verbatim, so its output can contain a candidate with an empty title
(no `"No Title"` placeholder is substituted). -/
theorem osf_empty_title_counterexample :
    (fetch_osf_preprints (.ok [osfNoTitle])).map (fun a => a.title) = [""] := by
  decide

/-- C4 (amended): the OpenAlex adapter's candidates always have a non-empty
title and a non-empty source label (falsy upstream titles are skipped), and
the OSF adapter's source label is always the non-empty constant
`"OSF Preprint"`; but the OSF and RSS adapters propagate the upstream title
verbatim, so an empty upstream title yields an empty candidate title. -/
theorem adapter_title_source_amended :
    (∀ reqs, ∀ a ∈ fetch_openalex_targeted reqs, a.title ≠ "" ∧ a.source ≠ "") ∧
    (∀ resp, ∀ a ∈ fetch_osf_preprints resp, a.source = "OSF Preprint") := by
  constructor
  · intro reqs a ha
    rw [fetch_openalex_targeted] at ha
    obtain ⟨⟨q, resp⟩, _, haq⟩ := List.mem_flatMap.1 ha
    cases resp with
    | error e => simp [openalexQuery] at haq
    | ok data =>
      rw [openalexQuery] at haq
      by_cases hs : data.status = 200
      · rw [if_pos hs] at haq
        obtain ⟨item, _, hitem⟩ := List.mem_filterMap.1 haq
        obtain ⟨ht, hsrc⟩ := openalexProcessItem_eq_some hitem
        exact ⟨ht, hsrc ▸ openalex_label_ne_empty _ _⟩
      · rw [if_neg hs] at haq
        cases haq
  · intro resp a ha
    cases resp with
    | error e => cases ha
    | ok items =>
      obtain ⟨item, _, hitem⟩ := List.mem_filterMap.1 ha
      exact (osfProcessItem_eq_some hitem).1

/-- Witness for C4 (amended) at concrete OpenAlex and OSF outputs. -/
theorem adapter_title_source_amended_witness :
    (wOaArticle.title ≠ "" ∧ wOaArticle.source ≠ "") ∧
    wArticle.source = "OSF Preprint" :=
  ⟨adapter_title_source_amended.1
      [("futurism OR simulation", .ok ⟨200, [wOaWork]⟩)] wOaArticle (by decide),
   adapter_title_source_amended.2 (.ok [wOsfItem]) wArticle (by decide)⟩

/-- Counterexample for C5: the OpenAlex adapter applies no length truncation
to its synthesized summary, so a 601-character concept label yields a
615-character summary, above the claimed 500-600 character bound. -/
theorem openalex_summary_unbounded_counterexample :
    (fetch_openalex_targeted [("futurism OR simulation", .ok ⟨200, [bigWork]⟩)]).map
        (fun a => a.summary.length) = [615] ∧ 600 < 615 := by
  refine ⟨?_, by decide⟩
  set_option maxRecDepth 100000 in decide

/-- C5 (amended): the OSF adapter truncates summaries to at most 500
characters and the RSS adapter to at most 600, but the OpenAlex adapter's
synthesized summary is not truncated and its length is unbounded. -/
theorem summary_truncation_amended :
    (∀ resp, ∀ a ∈ fetch_osf_preprints resp, a.summary.length ≤ 500) ∧
    (∀ resps, ∀ a ∈ fetch_rss_feeds resps, a.summary.length ≤ 600) := by
  constructor
  · intro resp a ha
    cases resp with
    | error e => cases ha
    | ok items =>
      obtain ⟨item, _, hitem⟩ := List.mem_filterMap.1 ha
      rw [(osfProcessItem_eq_some hitem).2.1]
      exact pyTrunc_length_le _ _
  · intro resps a ha
    rw [fetch_rss_feeds] at ha
    obtain ⟨resp, _, haf⟩ := List.mem_flatMap.1 ha
    cases resp with
    | error e => cases haf
    | ok feed =>
      obtain ⟨e, _, he⟩ := List.mem_filterMap.1 haf
      rw [rssProcessEntry_eq_some he]
      exact pyTrunc_length_le _ _

/-- Witness for C5 (amended) at concrete OSF and RSS outputs. -/
theorem summary_truncation_amended_witness :
    wArticle.summary.length ≤ 500 ∧ wRssArticle.summary.length ≤ 600 :=
  ⟨summary_truncation_amended.1 (.ok [wOsfItem]) wArticle (by decide),
   summary_truncation_amended.2 [.ok wRssFeed] wRssArticle (by decide)⟩

/-- C6: a judgment response that fails to parse or omits the score field
yields no scored result for that candidate, the rest of the batch is
processed as if the candidate were absent, and the explicit-progress
variant of the loop still returns without error. -/
theorem malformed_verdict_dropped (oracle : Article → AiOutcome) (a : Article)
    (h : oracle a = .failure ∨ ∃ d, oracle a = .parsed d ∧ d.score = none) :
    judge a (oracle a) = none ∧
    (∀ xs ys : List Article,
      List.filterMap (fun b => judge b (oracle b)) (xs ++ a :: ys) =
        List.filterMap (fun b => judge b (oracle b)) xs ++
          List.filterMap (fun b => judge b (oracle b)) ys) ∧
    (∀ articles shuffle, analyze_with_aiE articles shuffle oracle =
      .ok (analyze_with_ai articles shuffle oracle)) := by
  have h1 : judge a (oracle a) = none := by
    rcases h with hf | ⟨d, hd, hs⟩
    · rw [hf]; rfl
    · rw [hd]
      simp [judge, hs]
  refine ⟨h1, fun xs ys => ?_, fun articles shuffle => analyze_with_aiE_eq ..⟩
  rw [List.filterMap_append, List.filterMap_cons, h1]

/-- Witness for C6 with an always-failing judgment call. -/
theorem malformed_verdict_dropped_witness :
    judge scenA (failOracle scenA) = none ∧
    List.filterMap (fun b => judge b (failOracle b)) ([] ++ scenA :: []) =
      List.filterMap (fun b => judge b (failOracle b)) [] ++
        List.filterMap (fun b => judge b (failOracle b)) [] ∧
    analyze_with_aiE [scenA] id failOracle =
      .ok (analyze_with_ai [scenA] id failOracle) :=
  ⟨(malformed_verdict_dropped failOracle scenA (Or.inl rfl)).1,
   (malformed_verdict_dropped failOracle scenA (Or.inl rfl)).2.1 [] [],
   (malformed_verdict_dropped failOracle scenA (Or.inl rfl)).2.2 [scenA] id⟩

/-- C7: a raised request contributes zero candidates at exactly its place,
the adapter continues with its remaining requests, a raised OSF request
yields the empty list, and a failing OSF adapter does not change the run
beyond its own (empty) contribution. -/
theorem adapter_fault_isolation :
    (∀ (xs ys : List (String × Except Unit OpenAlexResp)) (q : String) (e : Unit),
      fetch_openalex_targeted (xs ++ (q, Except.error e) :: ys) =
        fetch_openalex_targeted xs ++ fetch_openalex_targeted ys) ∧
    (∀ e : Unit, fetch_osf_preprints (Except.error e) = []) ∧
    (∀ (xs ys : List (Except Unit RssFeed)) (e : Unit),
      fetch_rss_feeds (xs ++ Except.error e :: ys) =
        fetch_rss_feeds xs ++ fetch_rss_feeds ys) ∧
    (∀ oaReqs rssResps shuffle oracle (e : Unit),
      run_pipeline oaReqs (Except.error e) rssResps shuffle oracle =
        run_pipeline oaReqs (Except.ok []) rssResps shuffle oracle) := by
  refine ⟨fun xs ys q e => ?_, fun e => rfl, fun xs ys e => ?_,
    fun oaReqs rssResps shuffle oracle e => rfl⟩
  · simp [fetch_openalex_targeted, List.flatMap_append, List.flatMap_cons, openalexQuery]
  · simp [fetch_rss_feeds, List.flatMap_append, List.flatMap_cons, rssFeedArticles]

/-- C8: under any shuffle that permutes the input, the judgment stage
produces at most 25 results and every result's candidate comes from the
input list. -/
theorem judgment_cap_and_provenance (articles : List Article)
    (shuffle : List Article → List Article) (oracle : Article → AiOutcome)
    (h : (shuffle articles).Perm articles) :
    (analyze_with_ai articles shuffle oracle).length ≤ 25 ∧
    ∀ r ∈ analyze_with_ai articles shuffle oracle, r.original ∈ articles := by
  constructor
  · simp only [analyze_with_ai]
    split
    · simp
    · exact le_trans (List.length_filterMap_le _ _)
        (by rw [List.length_take]; exact min_le_left _ _)
  · intro r hr
    obtain ⟨a, ha, hj⟩ := mem_analyze hr
    rw [(judge_eq_some hj).1]
    exact h.mem_iff.1 (List.take_subset _ _ ha)

/-- Witness for C8 at a concrete singleton run with the identity shuffle. -/
theorem judgment_cap_and_provenance_witness :
    (analyze_with_ai [wArticle] id wOracle7).length ≤ 25 ∧
    wResult7.original ∈ [wArticle] :=
  ⟨(judgment_cap_and_provenance [wArticle] id wOracle7 (List.Perm.refl _)).1,
   (judgment_cap_and_provenance [wArticle] id wOracle7 (List.Perm.refl _)).2
     wResult7 (by decide)⟩

/-- C9: the winners list is sorted by score in descending order before
rendering (adjacent items are non-increasing in score), and the scenario
with verdict scores 5, 6, 9 and threshold 6 renders exactly the scores
`[9, 6]`. -/
theorem winners_sorted_descending :
    (∀ l : List ScoredResult,
      (sortWinners l).Chain' (fun a b => scoreOf b ≤ scoreOf a)) ∧
    (sortWinners (analyze_with_ai [scenA, scenB, scenC] id scenOracle)).map scoreOf
      = [9, 6] := by
  refine ⟨fun l => ?_, by decide⟩
  exact List.Pairwise.chain' (List.sorted_insertionSort scoreGe l)

/-- C10: calling the judgment stage on an empty candidate list returns an
empty result list, and for every input the explicit-progress variant
returns without error: the zero-total guard runs before the per-item loop,
so the progress fraction is never evaluated with a zero total. -/
theorem empty_selection_guard_safe :
    (∀ (shuffle : List Article → List Article) (oracle : Article → AiOutcome),
      shuffle [] = [] → analyze_with_aiE [] shuffle oracle = .ok []) ∧
    (∀ articles shuffle oracle,
      analyze_with_aiE articles shuffle oracle =
        .ok (analyze_with_ai articles shuffle oracle)) := by
  refine ⟨fun shuffle oracle h => ?_, fun a s o => analyze_with_aiE_eq a s o⟩
  simp [analyze_with_aiE, h]

/-- Witness for C10: the empty run under the identity shuffle. -/
theorem empty_selection_guard_safe_witness :
    analyze_with_aiE [] id failOracle = .ok [] ∧
    analyze_with_aiE [scenB] id wOracle7 =
      .ok (analyze_with_ai [scenB] id wOracle7) :=
  ⟨empty_selection_guard_safe.1 id failOracle rfl,
   empty_selection_guard_safe.2 [scenB] id wOracle7⟩

end Scanner
